import Mathlib

/-!
# Verification of `django-form-base.component.ts`

Shallow embedding of the dynamic-form component of the
`django-angular-dynamic-forms` repository, together with proofs of the
behavioural claims about it.

JavaScript objects are modelled as ordered association lists of
string keys to values (`Obj`), matching insertion-order iteration of
`Object.getOwnPropertyNames` for non-index keys.  Because `_flatten`
mutates objects in place through shared references, the object graph is
modelled explicitly: a `Heap` maps addresses to objects, and a value is
a scalar or a reference (`HVal.ref`) to an address.  Arrays-as-values
are outside the scope of the claims and are not modelled.
-/

/-- A JavaScript value as it occurs in form payloads: a scalar
(number, string, boolean, `undefined`) or a reference to an object
living in the heap. -/
inductive HVal where
  | num (n : Int)
  | str (s : String)
  | boolV (b : Bool)
  | undef
  | ref (a : Nat)
deriving DecidableEq, Repr

/-- Is the value an object reference? -/
def HVal.isRef : HVal → Bool
  | HVal.ref _ => true
  | _ => false

/-- A JavaScript object: its own enumerable properties in insertion
order. -/
abbrev Obj := List (String × HVal)

/-- The object heap: addresses mapped to objects. -/
abbrev Heap := List (Nat × Obj)

/-- `name.startsWith('generated_')` — the marker test of `_flatten`
(line 216 of the source), expressed over the character list of the
string (extensionally the same as `String.startsWith`, but stated in a
form the kernel can evaluate). -/
def isGeneratedKey (k : String) : Bool :=
  "generated_".data.isPrefixOf k.data

/-- First-match association-list lookup (JavaScript objects never hold
duplicate keys, so first-match agrees with property lookup). -/
def assocFind {α β : Type} [DecidableEq α] : List (α × β) → α → Option β
  | [], _ => none
  | (k1, v) :: rest, k => if k = k1 then some v else assocFind rest k

/-- Property read `o[k]` (absent property gives `none`). -/
def getKey (o : Obj) (k : String) : Option HVal :=
  assocFind o k

/-- Property write `o[k] = v`: overwrite in place when the key exists,
otherwise append at the end — JavaScript insertion-order semantics. -/
def setKey (o : Obj) (k : String) (v : HVal) : Obj :=
  if o.any (fun kv => kv.1 = k) then
    o.map (fun kv => if kv.1 = k then (k, v) else kv)
  else
    o ++ [(k, v)]

/-- Property deletion `delete o[k]`. -/
def delKey (o : Obj) (k : String) : Obj :=
  o.filter (fun kv => kv.1 ≠ k)

/-- The keys of an object, in order. -/
def keysOf (o : Obj) : List String :=
  o.map Prod.fst

/-- Dereference an address in the heap. -/
def lookupObj (h : Heap) (a : Nat) : Option Obj :=
  assocFind h a

/-- Apply `g` to the object stored at address `a`, leaving the rest of
the heap untouched. -/
def mapAt (h : Heap) (a : Nat) (g : Obj → Obj) : Heap :=
  h.map (fun p => if p.1 = a then (a, g p.2) else p)

/-- Heap-level property write at address `a`. -/
def setKeyAt (h : Heap) (a : Nat) (k : String) (v : HVal) : Heap :=
  mapAt h a (fun o => setKey o k v)

/-- Heap-level property deletion at address `a`. -/
def delKeyAt (h : Heap) (a : Nat) (k : String) : Heap :=
  mapAt h a (fun o => delKey o k)

/-- The value of property `k` of the object at address `a`. -/
def valAt (h : Heap) (a : Nat) (k : String) : Option HVal :=
  (lookupObj h a).bind (fun o => getKey o k)

/-- The hoist loop of `_flatten` (lines 217–219 of the source):
`for (const k of Object.getOwnPropertyNames(current)) { parent[k] = current[k]; }`
— `ks` is the snapshot of `current`'s keys, `src` the address of
`current`, `dst` the address of `parent`.  Each value is re-read from
the heap, and a read of a missing property writes `undefined`. -/
def hoistLoop : List String → Nat → Nat → Heap → Heap
  | [], _, _, h => h
  | k :: ks, src, dst, h =>
    let v := match valAt h src k with
      | none => HVal.undef
      | some v => v
    hoistLoop ks src dst (setKeyAt h dst k v)

/-- The per-key loop of `_flatten` (lines 212–215 of the source):
`for (const k of ...) { const val = current[k]; this._flatten(k, val, current); }`
— `ks` is the snapshot of keys taken when the loop starts, `a` the
address of `current`, and `f` the recursive call (at one fuel less).
A key whose value has been deleted meanwhile reads `undefined`, on
which `_flatten` immediately returns. -/
def flattenLoop (f : Option String → HVal → Option Nat → Heap → Heap) :
    List String → Nat → Heap → Heap
  | [], _, h => h
  | k :: ks, a, h =>
    let h1 := match valAt h a k with
      | none => h
      | some v => f (some k) v (some a) h
    flattenLoop f ks a h1

/-- `_flatten(name, current, parent)` (lines 208–222 of the source),
as a heap transformer.  Non-objects return immediately; an object
first recursively flattens each of its properties (mutating the heap),
then, when its own key `name` starts with `"generated_"`, hoists its
fields into `parent` and deletes `parent[name]`.  `fuel` bounds the
recursion depth (any fuel at least the nesting depth is enough; the
JavaScript original diverges on cyclic object graphs, which the claims
never involve). -/
def jsFlatten : Nat → Option String → HVal → Option Nat → Heap → Heap
  | 0, _, _, _, h => h
  | Nat.succ fuel, name, current, parent, h =>
    match current with
    | HVal.ref a =>
      match lookupObj h a with
      | none => h
      | some o =>
        let h1 := flattenLoop (fun n v p h' => jsFlatten fuel n v p h')
          (keysOf o) a h
        match name, parent with
        | some n, some p =>
          if isGeneratedKey n then
            match lookupObj h1 a with
            | some cur => delKeyAt (hoistLoop (keysOf cur) a p h1) p n
            | none => h1
          else h1
        | _, _ => h1
    | _ => h

example :
    jsFlatten 2 none (HVal.ref 1) none
      [(0, [("b", HVal.num 2), ("c", HVal.num 3)]),
       (1, [("a", HVal.num 1), ("generated_x", HVal.ref 0)])] =
    [(0, [("b", HVal.num 2), ("c", HVal.num 3)]),
     (1, [("a", HVal.num 1), ("b", HVal.num 2), ("c", HVal.num 3)])] := by
  decide

example :
    lookupObj (jsFlatten 3 none (HVal.ref 2) none
      [(0, [("b", HVal.num 1)]),
       (1, [("generated_y", HVal.ref 0)]),
       (2, [("generated_x", HVal.ref 1)])]) 2 =
    some [("b", HVal.num 1)] := by
  decide

/-! ## The submission pipeline (`submitted`, `submit_to_django`) -/

/-- `DjangoFormConfig` as used by the submission pipeline: the remote
target URL (`django_url`, `none` modelling JavaScript
`null`/`undefined`), the HTTP method string, and the initial-data
bookkeeping used by `ngOnInit`. -/
structure DjangoFormConfig where
  django_url : Option String
  method : String
  has_initial_data : Bool := false
  initial_data : Option HVal := none
deriving DecidableEq, Repr

/-- JavaScript truthiness of a string-or-null value: `null`,
`undefined` and `""` are falsy. -/
def strTruthy : Option String → Bool
  | none => false
  | some s => s != ""

/-- An HTTP request issued by the submission pipeline, carrying the
request body. -/
inductive HttpReq where
  | post (url : String) (body : Obj)
  | patch (url : String) (body : Obj)
deriving DecidableEq, Repr

/-- An event emitted synchronously by the submission pipeline to the
host application. -/
inductive FormEvent where
  | submitEvt (data : Obj)
  | cancelEvt (data : Obj)
deriving DecidableEq, Repr

/-- The object-spread merge `{...a, ...b}`: start from `a`'s entries
and write each entry of `b` over them in order, so on a shared key the
later spread (`b`) wins while the key keeps its position in `a`. -/
def jsSpread (a b : Obj) : Obj :=
  b.foldl (fun acc kv => setKey acc kv.1 kv.2) a

/-- The body of an HTTP request. -/
def HttpReq.body : HttpReq → Obj
  | HttpReq.post _ b => b
  | HttpReq.patch _ b => b

/-- `submit_to_django(data)` (lines 165–206 of the source), for the
single most-recent configuration `config` read from `config$.first()`
and with the caller-supplied `extra_form_data` already in plain-object
form `extra` (the `HttpParams` branch of lines 168–172 converts it to
exactly such an object).  Result: `Except.error` models the `throw` of
line 186; otherwise the issued HTTP request (if any) and the events
emitted synchronously.  The `submit` event of the success callback
(lines 190–199) fires only after the HTTP response arrives and is not
part of the synchronous result. -/
def submit_to_django (config : DjangoFormConfig) (extra : Obj) (data : Obj) :
    Except String (Option HttpReq × List FormEvent) :=
  if strTruthy config.django_url then
    match config.method with
    | "post" =>
      Except.ok (some (HttpReq.post (config.django_url.getD "") (jsSpread extra data)), [])
    | "patch" =>
      Except.ok (some (HttpReq.patch (config.django_url.getD "") (jsSpread extra data)), [])
    | m => Except.error ("Unimplemented method " ++ m)
  else
    Except.ok (none, [FormEvent.submitEvt data])

/-- `if (button_id) { value[button_id] = true; }` (lines 155–157 of
the source), at address `rc` in the heap; a falsy (`null` or empty)
button id writes nothing. -/
def applyButtonId (bid : Option String) (rc : Nat) (h : Heap) : Heap :=
  match bid with
  | none => h
  | some b => if b = "" then h else setKeyAt h rc b (HVal.boolV true)

/-- `submitted(button_id, is_cancel)` (lines 151–163 of the source).
`rv` is the address of the live `form.value` object in heap `h`; `rc`
the fresh address at which `Object.assign({}, this.form.value)` places
the shallow copy (callers must pick `rc` unused in `h` for the model
to match JavaScript allocation).  The copy is flattened in place, the
button id is recorded, and the pipeline either emits `cancel` or runs
`submit_to_django` with the (top-level) object now at `rc`.  Returns
the final heap together with the `submit_to_django`-style outcome. -/
def submitted (fuel : Nat) (h : Heap) (rv rc : Nat) (button_id : Option String)
    (is_cancel : Bool) (config : DjangoFormConfig) (extra : Obj) :
    Heap × Except String (Option HttpReq × List FormEvent) :=
  let v0 : Obj := (lookupObj h rv).getD []
  let h1 : Heap := h ++ [(rc, v0)]
  let h2 : Heap := jsFlatten fuel none (HVal.ref rc) none h1
  let h3 : Heap := applyButtonId button_id rc h2
  let dataObj : Obj := (lookupObj h3 rc).getD []
  if is_cancel then
    (h3, Except.ok (none, [FormEvent.cancelEvt dataObj]))
  else
    (h3, submit_to_django config extra dataObj)

/-- The flattened snapshot that `submitted` builds before branching on
the cancel flag: the shallow copy of the form values, flattened, with
the button id recorded.  Used to state what the emitted events carry. -/
def flattenSnapshot (fuel : Nat) (h : Heap) (rv rc : Nat) (bid : Option String) : Obj :=
  (lookupObj
    (applyButtonId bid rc
      (jsFlatten fuel none (HVal.ref rc) none (h ++ [(rc, (lookupObj h rv).getD [])])))
    rc).getD []

/-! ## The action-list normalizer (`_generate_actions`) -/

/-- A raw action descriptor as accepted by `_generate_actions`: a
JavaScript array (`arr`), a primitive used as both id and label
(`prim`), or an option object (`objA`) whose four relevant properties
may each be absent (`none` models `undefined`). -/
inductive RawAction where
  | arr (elems : List String)
  | prim (s : String)
  | objA (id : Option String) (label : Option String)
      (color : Option String) (cancel : Option Bool)
deriving DecidableEq, Repr

/-- The JavaScript property read `action.cancel` on a raw descriptor:
`undefined` on arrays and primitives, the `cancel` property on option
objects. -/
def rawCancelProp : RawAction → Option Bool
  | RawAction.objA _ _ _ c => c
  | _ => none

/-- A normalized action record as pushed by `_generate_actions`
(lines 83–88 of the source).  `cancel` is the value of the raw
descriptor's `cancel` property (`none` = `undefined`), because the
source pushes `cancel: action.cancel`, not the local `action_cancel`
variable. -/
structure NormalizedAction where
  id : Option String
  label : Option String
  color : String
  cancel : Option Bool
deriving DecidableEq, Repr

/-- The body of the `for` loop of `_generate_actions` (lines 61–88):
compute `action_id`, `action_label`, `action_color` per the
`if`/`else` chain, and push a record whose `cancel` field reads
`action.cancel` directly off the raw descriptor.  (The local
`action_cancel` variable of line 64 is assigned but never written to
the output, so it has no functional counterpart here.) -/
def generateOne (action : RawAction) : NormalizedAction :=
  match action with
  | RawAction.arr elems =>
    let action_id : Option String := elems[0]?
    let action_label : Option String :=
      match elems[1]? with
      | none => action_id
      | some l => some l
    { id := action_id, label := action_label, color := "primary", cancel := none }
  | RawAction.prim s =>
    { id := some s, label := some s, color := "primary", cancel := none }
  | RawAction.objA i l c cl =>
    { id := i, label := l,
      color := match c with
        | some col => if col != "" then col else "primary"
        | none => "primary",
      cancel := cl }

/-- `_generate_actions(actions)` (lines 58–92 of the source): `none`
models a falsy (`null`/`undefined`) input on which the loop is
skipped; otherwise the loop pushes one normalized record per
descriptor onto `ret`. -/
def generate_actions (actions : Option (List RawAction)) : List NormalizedAction :=
  match actions with
  | none => []
  | some acts => acts.foldl (fun ret action => ret ++ [generateOne action]) []

/-- The spec's own description of one normalization step (§4.3): a
pair gives `(id, label)` with the label defaulting to the id when
absent; a bare scalar is used as both id and label; an object supplies
`id`/`label`/`color`/`cancel` with the color defaulting to the primary
style.  Stated separately from `generateOne` so the code can be
checked against the spec's wording. -/
def normalizeActionSpec : RawAction → NormalizedAction
  | RawAction.arr elems =>
    { id := elems[0]?,
      label := match elems[1]? with
        | some l => some l
        | none => elems[0]?,
      color := "primary", cancel := none }
  | RawAction.prim s =>
    { id := some s, label := some s, color := "primary", cancel := none }
  | RawAction.objA i l c cl =>
    { id := i, label := l,
      color := match c with
        | some col => if col != "" then col else "primary"
        | none => "primary",
      cancel := cl }

/-! ## The configuration resolver (`ngOnInit`) -/

/-- The `mergeMap` branch of `ngOnInit` for configurations that need
initial data (lines 108–121 of the source): issue one
`GET config.django_url` (modelled by the oracle `http_get`), transform
the response with `initial_data_transformation`, and spread the result
onto the configuration as its `initial_data` property. -/
def attachInitialData (http_get : Option String → HVal) (idt : HVal → HVal)
    (c : DjangoFormConfig) : DjangoFormConfig :=
  { c with initial_data := some (idt (http_get c.django_url)) }

/-- The resolved-configuration pipeline of `ngOnInit` (lines 97–127 of
the source) for one incoming configuration: the `partition` on
`has_initial_data` routes it either through `attachInitialData` (one
extra GET) or straight through, and the merged stream finally applies
`config_transformation`.  Returns the published configuration together
with the list of URLs the branch fetched (the reactive plumbing is
compressed to this per-configuration function; `merge` preserves each
element unchanged). -/
def ngOnInitResolve (http_get : Option String → HVal) (idt : HVal → HVal)
    (ct : DjangoFormConfig → DjangoFormConfig) (c : DjangoFormConfig) :
    DjangoFormConfig × List (Option String) :=
  if c.has_initial_data then
    (ct (attachInitialData http_get idt c), [c.django_url])
  else
    (ct c, [])

/-! ## Association-list and heap lemmas -/

theorem assocFind_mem {α β : Type} [DecidableEq α] {l : List (α × β)} {a : α} {b : β}
    (h : assocFind l a = some b) : (a, b) ∈ l := by
  induction l with
  | nil => simp [assocFind] at h
  | cons kv rest ih =>
    obtain ⟨k1, v1⟩ := kv
    rw [assocFind] at h
    by_cases hk : a = k1
    · rw [if_pos hk] at h
      injection h with h
      subst hk
      subst h
      exact List.mem_cons_self _ _
    · rw [if_neg hk] at h
      exact List.mem_cons_of_mem _ (ih h)

theorem assocFind_of_mem_nodup {α β : Type} [DecidableEq α] {l : List (α × β)} {a : α} {b : β}
    (hnd : (l.map Prod.fst).Nodup) (hmem : (a, b) ∈ l) : assocFind l a = some b := by
  induction l with
  | nil => simp at hmem
  | cons kv rest ih =>
    obtain ⟨k1, v1⟩ := kv
    rw [List.map_cons, List.nodup_cons] at hnd
    rw [assocFind]
    rcases List.mem_cons.mp hmem with heq | htail
    · injection heq with h1 h2
      subst h1
      subst h2
      rw [if_pos rfl]
    · have hk : a ≠ k1 := by
        rintro rfl
        exact hnd.1 (List.mem_map.mpr ⟨(a, b), htail, rfl⟩)
      rw [if_neg hk]
      exact ih hnd.2 htail

theorem assocFind_append_left {α β : Type} [DecidableEq α] {l1 l2 : List (α × β)} {a : α} {b : β}
    (h : assocFind l1 a = some b) : assocFind (l1 ++ l2) a = some b := by
  induction l1 with
  | nil => simp [assocFind] at h
  | cons kv rest ih =>
    obtain ⟨k1, v1⟩ := kv
    rw [assocFind] at h
    rw [List.cons_append, assocFind]
    by_cases hk : a = k1
    · rw [if_pos hk] at h ⊢
      exact h
    · rw [if_neg hk] at h ⊢
      exact ih h

theorem assocFind_append_none {α β : Type} [DecidableEq α] {l1 l2 : List (α × β)} {a : α}
    (h : assocFind l1 a = none) : assocFind (l1 ++ l2) a = assocFind l2 a := by
  induction l1 with
  | nil => simp [assocFind]
  | cons kv rest ih =>
    obtain ⟨k1, v1⟩ := kv
    rw [assocFind] at h
    rw [List.cons_append, assocFind]
    by_cases hk : a = k1
    · rw [if_pos hk] at h
      simp at h
    · rw [if_neg hk] at h ⊢
      exact ih h

theorem any_key_eq_isSome (o : Obj) (k : String) :
    (o.any fun kv => kv.1 = k) = (getKey o k).isSome := by
  induction o with
  | nil => simp [getKey, assocFind]
  | cons kv rest ih =>
    obtain ⟨k1, v1⟩ := kv
    rw [getKey, assocFind]
    by_cases hk : k = k1
    · subst hk
      simp
    · rw [if_neg hk]
      rw [getKey] at ih
      simp only [List.any_cons, ← ih]
      have : (k1 = k) = False := by simp [Ne.symm hk]
      simp [this]

theorem assocFind_cons {α β : Type} [DecidableEq α] (k1 : α) (v : β) (l : List (α × β))
    (a : α) : assocFind ((k1, v) :: l) a = if a = k1 then some v else assocFind l a :=
  rfl

theorem map_replace_head_eq (k : String) (v : HVal) (k1 : String) (v1 : HVal) (h : k1 = k) :
    (if (k1, v1).1 = k then (k, v) else (k1, v1)) = (k, v) :=
  if_pos h

theorem map_replace_head_ne (k : String) (v : HVal) (k1 : String) (v1 : HVal) (h : ¬ k1 = k) :
    (if (k1, v1).1 = k then (k, v) else (k1, v1)) = (k1, v1) :=
  if_neg h

theorem assocFind_replace (o : Obj) (k : String) (v : HVal) (k' : String) :
    assocFind (o.map fun kv => if kv.1 = k then (k, v) else kv) k' =
      if k' = k then (assocFind o k).map (fun _ => v) else assocFind o k' := by
  induction o with
  | nil =>
    simp only [List.map_nil, assocFind]
    split <;> rfl
  | cons kv rest ih =>
    obtain ⟨k1, v1⟩ := kv
    simp only [List.map_cons]
    by_cases h1 : k1 = k
    · rw [map_replace_head_eq k v k1 v1 h1]
      simp only [assocFind_cons]
      by_cases h2 : k' = k
      · rw [if_pos h2, if_pos h2, if_pos h1.symm]
        rfl
      · have h2' : ¬ k' = k1 := fun hh => h2 (hh.trans h1)
        rw [if_neg h2, if_neg h2, if_neg h2', ih, if_neg h2]
    · have h4 : ¬ k = k1 := fun hh => h1 hh.symm
      rw [map_replace_head_ne k v k1 v1 h1]
      simp only [assocFind_cons]
      by_cases h2 : k' = k1
      · have h3 : ¬ k' = k := fun hh => h1 (h2.symm.trans hh)
        rw [if_pos h2, if_neg h3, if_pos h2]
      · rw [if_neg h2, ih, if_neg h4, if_neg h2]

theorem getKey_setKey_self (o : Obj) (k : String) (v : HVal) :
    getKey (setKey o k v) k = some v := by
  rw [setKey]
  by_cases hmem : (o.any fun kv => kv.1 = k) = true
  · rw [if_pos hmem, getKey, assocFind_replace, if_pos rfl]
    rw [any_key_eq_isSome, getKey] at hmem
    cases hg : assocFind o k with
    | none => rw [hg] at hmem; simp at hmem
    | some w => rfl
  · rw [if_neg hmem, getKey]
    have hnone : assocFind o k = none := by
      rw [any_key_eq_isSome, getKey] at hmem
      cases hg : assocFind o k with
      | none => rfl
      | some w => rw [hg] at hmem; simp at hmem
    rw [assocFind_append_none hnone, assocFind, if_pos rfl]

theorem getKey_setKey_ne {k k' : String} (hne : k' ≠ k) (o : Obj) (v : HVal) :
    getKey (setKey o k v) k' = getKey o k' := by
  rw [setKey]
  by_cases hmem : (o.any fun kv => kv.1 = k) = true
  · rw [if_pos hmem, getKey, assocFind_replace, if_neg hne, getKey]
  · rw [if_neg hmem, getKey, getKey]
    cases hg : assocFind o k' with
    | some w => exact assocFind_append_left hg
    | none =>
      rw [assocFind_append_none hg]
      simp [assocFind, hne]

theorem getKey_eq_none_of_not_mem {o : Obj} {k : String} (h : k ∉ keysOf o) :
    getKey o k = none := by
  cases hg : getKey o k with
  | none => rfl
  | some v =>
    rw [getKey] at hg
    exact absurd (List.mem_map.mpr ⟨(k, v), assocFind_mem hg, rfl⟩) h

theorem setKey_of_not_mem {o : Obj} {k : String} (h : k ∉ keysOf o) (v : HVal) :
    setKey o k v = o ++ [(k, v)] := by
  have hnone : getKey o k = none := getKey_eq_none_of_not_mem h
  have hany : (o.any fun kv => kv.1 = k) = false := by
    rw [any_key_eq_isSome, hnone]
    rfl
  rw [setKey, hany]
  simp

theorem mem_setKey {o : Obj} {k : String} {v : HVal} {kv : String × HVal}
    (h : kv ∈ setKey o k v) : kv = (k, v) ∨ kv ∈ o := by
  rw [setKey] at h
  by_cases hmem : (o.any fun kv => kv.1 = k) = true
  · rw [if_pos hmem] at h
    obtain ⟨kv0, hkv0, heq⟩ := List.mem_map.mp h
    by_cases hk : kv0.1 = k
    · rw [if_pos hk] at heq
      exact Or.inl heq.symm
    · rw [if_neg hk] at heq
      exact Or.inr (heq ▸ hkv0)
  · rw [if_neg hmem] at h
    rcases List.mem_append.mp h with h1 | h2
    · exact Or.inr h1
    · exact Or.inl (List.mem_singleton.mp h2)

theorem mem_delKey {o : Obj} {k : String} {kv : String × HVal} (h : kv ∈ delKey o k) :
    kv ∈ o :=
  List.mem_of_mem_filter h

theorem delKey_of_not_mem {o : Obj} {k : String} (h : k ∉ keysOf o) : delKey o k = o := by
  rw [delKey]
  apply List.filter_eq_self.mpr
  intro kv hkv
  have hne : kv.1 ≠ k := by
    rintro rfl
    exact h (List.mem_map.mpr ⟨kv, hkv, rfl⟩)
  simp [hne]

theorem delKey_append (o1 o2 : Obj) (k : String) :
    delKey (o1 ++ o2) k = delKey o1 k ++ delKey o2 k := by
  rw [delKey, delKey, delKey, List.filter_append]

theorem lookupObj_nil (a : Nat) : lookupObj ([] : Heap) a = none :=
  rfl

theorem lookupObj_cons (a1 : Nat) (o1 : Obj) (rest : Heap) (a : Nat) :
    lookupObj ((a1, o1) :: rest) a = if a = a1 then some o1 else lookupObj rest a :=
  rfl

theorem mapAt_cons (a1 : Nat) (o1 : Obj) (rest : Heap) (a : Nat) (g : Obj → Obj) :
    mapAt ((a1, o1) :: rest) a g =
      (if a1 = a then (a, g o1) else (a1, o1)) :: mapAt rest a g :=
  rfl

theorem lookupObj_mapAt_self {h : Heap} {a : Nat} {o : Obj} (hl : lookupObj h a = some o)
    (g : Obj → Obj) : lookupObj (mapAt h a g) a = some (g o) := by
  induction h with
  | nil => simp [lookupObj, assocFind] at hl
  | cons p rest ih =>
    obtain ⟨a1, o1⟩ := p
    rw [lookupObj_cons] at hl
    by_cases ha : a = a1
    · rw [if_pos ha] at hl
      injection hl with hl
      subst hl
      rw [mapAt_cons, if_pos ha.symm, lookupObj_cons, if_pos rfl]
    · rw [if_neg ha] at hl
      rw [mapAt_cons, if_neg (fun hh => ha hh.symm), lookupObj_cons, if_neg ha]
      exact ih hl

theorem lookupObj_mapAt_ne {b a : Nat} (hne : b ≠ a) (h : Heap) (g : Obj → Obj) :
    lookupObj (mapAt h a g) b = lookupObj h b := by
  induction h with
  | nil => rfl
  | cons p rest ih =>
    obtain ⟨a1, o1⟩ := p
    by_cases ha : a1 = a
    · rw [mapAt_cons, if_pos ha, lookupObj_cons, lookupObj_cons]
      rw [if_neg hne, if_neg (fun hh => hne (hh.trans ha))]
      exact ih
    · rw [mapAt_cons, if_neg ha, lookupObj_cons, lookupObj_cons]
      by_cases hb : b = a1
      · rw [if_pos hb, if_pos hb]
      · rw [if_neg hb, if_neg hb]
        exact ih

/-! ## Frame lemmas: `_flatten` never touches an unreferenced address

These support the analysis of the shallow copy taken by `submitted`:
an address that no object in the heap refers to, and that is neither
the current value nor the parent of a `_flatten` call, keeps its
object unchanged. -/

/-- No object anywhere in the heap stores a reference to address `b`. -/
def noRefToB (b : Nat) (h : Heap) : Bool :=
  h.all (fun ao => ao.2.all (fun kv => !(kv.2 == HVal.ref b)))

theorem noRefToB_val {b : Nat} {h : Heap} (hn : noRefToB b h = true) {a : Nat} {o : Obj}
    (hl : lookupObj h a = some o) {kv : String × HVal} (hkv : kv ∈ o) :
    kv.2 ≠ HVal.ref b := by
  rw [noRefToB, List.all_eq_true] at hn
  have h1 := hn (a, o) (assocFind_mem hl)
  rw [List.all_eq_true] at h1
  have h2 := h1 kv hkv
  simpa using h2

theorem valAt_ne_ref {b : Nat} {h : Heap} (hn : noRefToB b h = true) {a : Nat} {k : String}
    {v : HVal} (hv : valAt h a k = some v) : v ≠ HVal.ref b := by
  rw [valAt] at hv
  cases hl : lookupObj h a with
  | none => rw [hl] at hv; simp at hv
  | some o =>
    rw [hl] at hv
    simp only [Option.some_bind] at hv
    rw [getKey] at hv
    exact noRefToB_val hn hl (assocFind_mem hv)

theorem noRefToB_setKeyAt {b : Nat} {h : Heap} (hn : noRefToB b h = true) (a : Nat)
    (k : String) {v : HVal} (hv : v ≠ HVal.ref b) :
    noRefToB b (setKeyAt h a k v) = true := by
  rw [noRefToB, List.all_eq_true] at hn ⊢
  intro p hp
  rw [setKeyAt, mapAt] at hp
  obtain ⟨p0, hp0, heq⟩ := List.mem_map.mp hp
  by_cases hc : p0.1 = a
  · rw [if_pos hc] at heq
    subst heq
    rw [List.all_eq_true]
    intro kv hkv
    rcases mem_setKey hkv with heq2 | hmem
    · subst heq2
      simpa using hv
    · have h1 := hn p0 hp0
      rw [List.all_eq_true] at h1
      exact h1 kv hmem
  · rw [if_neg hc] at heq
    subst heq
    exact hn p0 hp0

theorem noRefToB_delKeyAt {b : Nat} {h : Heap} (hn : noRefToB b h = true) (a : Nat)
    (k : String) : noRefToB b (delKeyAt h a k) = true := by
  rw [noRefToB, List.all_eq_true] at hn ⊢
  intro p hp
  rw [delKeyAt, mapAt] at hp
  obtain ⟨p0, hp0, heq⟩ := List.mem_map.mp hp
  by_cases hc : p0.1 = a
  · rw [if_pos hc] at heq
    subst heq
    rw [List.all_eq_true]
    intro kv hkv
    have h1 := hn p0 hp0
    rw [List.all_eq_true] at h1
    exact h1 kv (mem_delKey hkv)
  · rw [if_neg hc] at heq
    subst heq
    exact hn p0 hp0

theorem noRefToB_append {b : Nat} {h : Heap} {rc : Nat} {o : Obj}
    (hn : noRefToB b h = true) (ho : (o.all fun kv => !(kv.2 == HVal.ref b)) = true) :
    noRefToB b (h ++ [(rc, o)]) = true := by
  rw [noRefToB, List.all_eq_true] at hn ⊢
  intro p hp
  rcases List.mem_append.mp hp with h1 | h2
  · exact hn p h1
  · rw [List.mem_singleton] at h2
    subst h2
    exact ho

theorem hoistLoop_frame {b : Nat} : ∀ (ks : List String) (src dst : Nat) (h : Heap),
    noRefToB b h = true → dst ≠ b →
    lookupObj (hoistLoop ks src dst h) b = lookupObj h b ∧
      noRefToB b (hoistLoop ks src dst h) = true := by
  intro ks
  induction ks with
  | nil =>
    intro src dst h hn _
    exact ⟨rfl, hn⟩
  | cons k ks ih =>
    intro src dst h hn hd
    rw [hoistLoop]
    cases hv : valAt h src k with
    | none =>
      have hne : HVal.undef ≠ HVal.ref b := by simp
      obtain ⟨hl1, hn1⟩ := ih src dst (setKeyAt h dst k HVal.undef)
        (noRefToB_setKeyAt hn dst k hne) hd
      exact ⟨hl1.trans (lookupObj_mapAt_ne (fun hh => hd hh.symm) h _), hn1⟩
    | some v0 =>
      have hne := valAt_ne_ref hn hv
      obtain ⟨hl1, hn1⟩ := ih src dst (setKeyAt h dst k v0)
        (noRefToB_setKeyAt hn dst k hne) hd
      exact ⟨hl1.trans (lookupObj_mapAt_ne (fun hh => hd hh.symm) h _), hn1⟩

theorem flattenLoop_frame {b : Nat}
    (f : Option String → HVal → Option Nat → Heap → Heap)
    (hf : ∀ (n : Option String) (v : HVal) (p : Option Nat) (h : Heap),
      noRefToB b h = true → v ≠ HVal.ref b → p ≠ some b →
      lookupObj (f n v p h) b = lookupObj h b ∧ noRefToB b (f n v p h) = true) :
    ∀ (ks : List String) (a : Nat) (h : Heap), noRefToB b h = true → a ≠ b →
      lookupObj (flattenLoop f ks a h) b = lookupObj h b ∧
        noRefToB b (flattenLoop f ks a h) = true := by
  intro ks
  induction ks with
  | nil =>
    intro a h hn _
    exact ⟨rfl, hn⟩
  | cons k ks ih =>
    intro a h hn ha
    rw [flattenLoop]
    cases hv : valAt h a k with
    | none => exact ih a h hn ha
    | some v =>
      have hvne := valAt_ne_ref hn hv
      have hp : (some a : Option Nat) ≠ some b := fun hh => ha (Option.some.inj hh)
      obtain ⟨hl1, hn1⟩ := hf (some k) v (some a) h hn hvne hp
      obtain ⟨hl2, hn2⟩ := ih a _ hn1 ha
      exact ⟨hl2.trans hl1, hn2⟩

theorem jsFlatten_frame {b : Nat} : ∀ (fuel : Nat) (name : Option String) (cur : HVal)
    (par : Option Nat) (h : Heap), noRefToB b h = true → cur ≠ HVal.ref b →
    par ≠ some b →
    lookupObj (jsFlatten fuel name cur par h) b = lookupObj h b ∧
      noRefToB b (jsFlatten fuel name cur par h) = true := by
  intro fuel
  induction fuel with
  | zero =>
    intro name cur par h hn _ _
    exact ⟨rfl, hn⟩
  | succ fuel ih =>
    intro name cur par h hn hc hp
    cases cur with
    | num n0 => exact ⟨rfl, hn⟩
    | str s0 => exact ⟨rfl, hn⟩
    | boolV b0 => exact ⟨rfl, hn⟩
    | undef => exact ⟨rfl, hn⟩
    | ref a =>
      have ha : a ≠ b := fun hh => hc (by rw [hh])
      rw [jsFlatten.eq_def]
      dsimp only
      cases hl : lookupObj h a with
      | none => exact ⟨rfl, hn⟩
      | some o =>
        obtain ⟨hl1, hn1⟩ := flattenLoop_frame _
          (fun n v p h' hn' hv' hp' => ih n v p h' hn' hv' hp') (keysOf o) a h hn ha
        cases name with
        | none =>
          cases par with
          | none => exact ⟨hl1, hn1⟩
          | some p => exact ⟨hl1, hn1⟩
        | some n =>
          cases par with
          | none => exact ⟨hl1, hn1⟩
          | some p =>
            have hpb : p ≠ b := fun hh => hp (by rw [hh])
            dsimp only
            by_cases hm : isGeneratedKey n = true
            · rw [if_pos hm]
              cases hcur : lookupObj
                  (flattenLoop (fun n v p h' => jsFlatten fuel n v p h') (keysOf o) a h) a with
              | none => exact ⟨hl1, hn1⟩
              | some cur2 =>
                obtain ⟨hl2, hn2⟩ := hoistLoop_frame (keysOf cur2) a p _ hn1 hpb
                refine ⟨?_, noRefToB_delKeyAt hn2 p n⟩
                have hstep : lookupObj (delKeyAt (hoistLoop (keysOf cur2) a p
                      (flattenLoop (fun n v p h' => jsFlatten fuel n v p h') (keysOf o) a h))
                      p n) b =
                    lookupObj (hoistLoop (keysOf cur2) a p
                      (flattenLoop (fun n v p h' => jsFlatten fuel n v p h')
                        (keysOf o) a h)) b :=
                  lookupObj_mapAt_ne (fun hh => hpb hh.symm) _ _
                exact hstep.trans (hl2.trans hl1)
            · rw [if_neg hm]
              exact ⟨hl1, hn1⟩

/-! ## No-marker heaps: `_flatten` changes nothing -/

/-- No object anywhere in the heap has a key prefixed by `"generated_"`. -/
def heapNoMarkerB (h : Heap) : Bool :=
  h.all (fun ao => ao.2.all (fun kv => !(isGeneratedKey kv.1)))

/-- The `name` argument of a `_flatten` call is absent or unmarked. -/
def nameOkB : Option String → Bool
  | none => true
  | some n => !(isGeneratedKey n)

theorem heapNoMarkerB_key {h : Heap} (hn : heapNoMarkerB h = true) {a : Nat} {o : Obj}
    (hl : lookupObj h a = some o) {kv : String × HVal} (hkv : kv ∈ o) :
    isGeneratedKey kv.1 = false := by
  rw [heapNoMarkerB, List.all_eq_true] at hn
  have h1 := hn (a, o) (assocFind_mem hl)
  rw [List.all_eq_true] at h1
  have h2 := h1 kv hkv
  simpa using h2

theorem flattenLoop_noMarker (f : Option String → HVal → Option Nat → Heap → Heap)
    (hf : ∀ (n0 : String) (v : HVal) (p : Option Nat) (h : Heap),
      heapNoMarkerB h = true → isGeneratedKey n0 = false → f (some n0) v p h = h) :
    ∀ (ks : List String) (a : Nat) (h : Heap), heapNoMarkerB h = true →
      (∀ k ∈ ks, isGeneratedKey k = false) → flattenLoop f ks a h = h := by
  intro ks
  induction ks with
  | nil =>
    intro a h _ _
    rfl
  | cons k ks ih =>
    intro a h hn hks
    rw [flattenLoop]
    cases hv : valAt h a k with
    | none => exact ih a h hn (fun k2 hk2 => hks k2 (List.mem_cons_of_mem _ hk2))
    | some v =>
      dsimp only
      rw [hf k v (some a) h hn (hks k (List.mem_cons_self _ _))]
      exact ih a h hn (fun k2 hk2 => hks k2 (List.mem_cons_of_mem _ hk2))

theorem jsFlatten_noMarker : ∀ (fuel : Nat) (name : Option String) (v : HVal)
    (par : Option Nat) (h : Heap), heapNoMarkerB h = true → nameOkB name = true →
    jsFlatten fuel name v par h = h := by
  intro fuel
  induction fuel with
  | zero =>
    intro name v par h _ _
    rfl
  | succ fuel ih =>
    intro name v par h hn hname
    cases v with
    | num n0 => rfl
    | str s0 => rfl
    | boolV b0 => rfl
    | undef => rfl
    | ref a =>
      rw [jsFlatten.eq_def]
      dsimp only
      cases hl : lookupObj h a with
      | none => rfl
      | some o =>
        have hloop :
            flattenLoop (fun n v p h' => jsFlatten fuel n v p h') (keysOf o) a h = h := by
          refine flattenLoop_noMarker _ ?_ (keysOf o) a h hn ?_
          · intro n0 v0 p0 h0 hn0 hk0
            refine ih (some n0) v0 p0 h0 hn0 ?_
            simp [nameOkB, hk0]
          · intro k hk
            have hk2 : k ∈ o.map Prod.fst := hk
            obtain ⟨kv, hkv, hkeq⟩ := List.mem_map.mp hk2
            rw [← hkeq]
            exact heapNoMarkerB_key hn hl hkv
        cases name with
        | none =>
          cases par with
          | none => exact hloop
          | some p => exact hloop
        | some n =>
          cases par with
          | none => exact hloop
          | some p =>
            dsimp only
            have hmn : isGeneratedKey n = false := by
              simpa [nameOkB] using hname
            have hcond : ¬ (isGeneratedKey n = true) := by
              rw [hmn]
              simp
            rw [if_neg hcond]
            exact hloop

/-! ## The hoisting behaviour of `_flatten` on a marked child -/

/-- Every value of the object is a scalar (not an object reference). -/
def objScalarB (o : Obj) : Bool :=
  o.all (fun kv => !(kv.2.isRef))

theorem objScalarB_val {o : Obj} (hs : objScalarB o = true) {kv : String × HVal}
    (hkv : kv ∈ o) : kv.2.isRef = false := by
  rw [objScalarB, List.all_eq_true] at hs
  simpa using hs kv hkv

theorem jsFlatten_nonref {v : HVal} (hv : v.isRef = false) (fuel : Nat)
    (name : Option String) (par : Option Nat) (h : Heap) :
    jsFlatten fuel name v par h = h := by
  cases fuel with
  | zero => rfl
  | succ fuel =>
    cases v with
    | num n0 => rfl
    | str s0 => rfl
    | boolV b0 => rfl
    | undef => rfl
    | ref a => simp [HVal.isRef] at hv

theorem flattenLoop_append (f : Option String → HVal → Option Nat → Heap → Heap)
    (l1 l2 : List String) (a : Nat) (h : Heap) :
    flattenLoop f (l1 ++ l2) a h = flattenLoop f l2 a (flattenLoop f l1 a h) := by
  induction l1 generalizing h with
  | nil => rfl
  | cons k ks ih =>
    rw [List.cons_append, flattenLoop, flattenLoop]
    cases hv : valAt h a k with
    | none => exact ih _
    | some v => exact ih _

theorem flattenLoop_scalars (f : Option String → HVal → Option Nat → Heap → Heap)
    (hf : ∀ (n : Option String) (v : HVal) (p : Option Nat) (h : Heap),
      v.isRef = false → f n v p h = h) :
    ∀ (ks : List String) (a : Nat) (h : Heap),
      (∀ k ∈ ks, ∀ v, valAt h a k = some v → v.isRef = false) →
      flattenLoop f ks a h = h := by
  intro ks
  induction ks with
  | nil =>
    intro a h _
    rfl
  | cons k ks ih =>
    intro a h hks
    rw [flattenLoop]
    cases hv : valAt h a k with
    | none => exact ih a h (fun k2 hk2 => hks k2 (List.mem_cons_of_mem _ hk2))
    | some v =>
      dsimp only
      rw [hf (some k) v (some a) h (hks k (List.mem_cons_self _ _) v hv)]
      exact ih a h (fun k2 hk2 => hks k2 (List.mem_cons_of_mem _ hk2))

theorem delKey_cons_self (k : String) (v : HVal) (o : Obj) :
    delKey ((k, v) :: o) k = delKey o k := by
  simp [delKey]

theorem keysOf_append (o1 o2 : Obj) : keysOf (o1 ++ o2) = keysOf o1 ++ keysOf o2 :=
  List.map_append _ _ _

theorem hoistLoop_appends {a ga : Nat} (hne : a ≠ ga) {g : Obj}
    (hgnd : (keysOf g).Nodup) :
    ∀ (gt : Obj) (h : Heap) (cur : Obj),
    lookupObj h ga = some g → lookupObj h a = some cur →
    (∀ kv ∈ gt, kv ∈ g) → (keysOf gt).Nodup →
    (∀ kv ∈ gt, kv.1 ∉ keysOf cur) →
    lookupObj (hoistLoop (keysOf gt) ga a h) a = some (cur ++ gt) ∧
      lookupObj (hoistLoop (keysOf gt) ga a h) ga = some g := by
  intro gt
  induction gt with
  | nil =>
    intro h cur hg hc _ _ _
    rw [show keysOf ([] : Obj) = [] from rfl, hoistLoop, List.append_nil]
    exact ⟨hc, hg⟩
  | cons kv gt ih =>
    obtain ⟨k2, v2⟩ := kv
    intro h cur hg hc hsub hnd hdisj
    rw [show keysOf ((k2, v2) :: gt) = k2 :: keysOf gt from rfl] at hnd ⊢
    rw [List.nodup_cons] at hnd
    rw [hoistLoop]
    have hval : valAt h ga k2 = some v2 := by
      rw [valAt, hg]
      simp only [Option.some_bind]
      rw [getKey]
      exact assocFind_of_mem_nodup hgnd (hsub (k2, v2) (List.mem_cons_self _ _))
    rw [hval]
    dsimp only
    have hset : lookupObj (setKeyAt h a k2 v2) a = some (setKey cur k2 v2) :=
      lookupObj_mapAt_self hc _
    have hsknm : setKey cur k2 v2 = cur ++ [(k2, v2)] :=
      setKey_of_not_mem (hdisj (k2, v2) (List.mem_cons_self _ _)) v2
    have hga2 : lookupObj (setKeyAt h a k2 v2) ga = some g :=
      (lookupObj_mapAt_ne (fun hh => hne hh.symm) h _).trans hg
    have hset2 : lookupObj (setKeyAt h a k2 v2) a = some (cur ++ [(k2, v2)]) := by
      rw [hset, hsknm]
    have hdisj2 : ∀ kv ∈ gt, kv.1 ∉ keysOf (cur ++ [(k2, v2)]) := by
      intro kv hkv
      rw [keysOf_append]
      intro hmem
      rcases List.mem_append.mp hmem with h1 | h1
      · exact hdisj kv (List.mem_cons_of_mem _ hkv) h1
      · have hke : kv.1 = k2 := by
          rw [show keysOf [(k2, v2)] = [k2] from rfl] at h1
          exact List.mem_singleton.mp h1
        exact hnd.1 (hke ▸ List.mem_map.mpr ⟨kv, hkv, rfl⟩)
    obtain ⟨h1, h2⟩ := ih (setKeyAt h a k2 v2) (cur ++ [(k2, v2)]) hga2 hset2
      (fun kv hkv => hsub kv (List.mem_cons_of_mem _ hkv)) hnd.2 hdisj2
    refine ⟨?_, h2⟩
    rw [h1, List.append_assoc]
    rfl

theorem valAt_scalar_of_mem {h : Heap} {a : Nat} {o : Obj} (hl : lookupObj h a = some o)
    (hnd : (keysOf o).Nodup) {os : Obj} (hsub : ∀ kv ∈ os, kv ∈ o)
    (hs : objScalarB os = true) :
    ∀ k1 ∈ keysOf os, ∀ v, valAt h a k1 = some v → v.isRef = false := by
  intro k1 hk1 v hv
  obtain ⟨kv1, hkv1, hkeq⟩ := List.mem_map.mp hk1
  rw [valAt, hl] at hv
  simp only [Option.some_bind] at hv
  rw [getKey] at hv
  have hfind : assocFind o k1 = some kv1.2 := by
    have hmemP : (k1, kv1.2) ∈ o := by
      rw [← hkeq]
      exact hsub kv1 hkv1
    exact assocFind_of_mem_nodup hnd hmemP
  rw [hv] at hfind
  injection hfind with hfind
  rw [hfind]
  exact objScalarB_val hs hkv1

theorem flatten_hoists_general (fuel : Nat) (h : Heap) (a ga : Nat) (p1 p2 g : Obj)
    (k : String)
    (hla : lookupObj h a = some (p1 ++ (k, HVal.ref ga) :: p2))
    (hlg : lookupObj h ga = some g)
    (hne : a ≠ ga)
    (hk : isGeneratedKey k = true)
    (hs1 : objScalarB p1 = true) (hs2 : objScalarB p2 = true) (hsg : objScalarB g = true)
    (hndP : (keysOf (p1 ++ (k, HVal.ref ga) :: p2)).Nodup)
    (hndg : (keysOf g).Nodup)
    (hdisj : ∀ k2 ∈ keysOf g, k2 ∉ keysOf (p1 ++ (k, HVal.ref ga) :: p2)) :
    lookupObj (jsFlatten (fuel + 2) none (HVal.ref a) none h) a = some (p1 ++ p2 ++ g) := by
  have hkP : keysOf (p1 ++ (k, HVal.ref ga) :: p2) = keysOf p1 ++ k :: keysOf p2 := by
    rw [keysOf_append]
    rfl
  have hndP' := hndP
  rw [hkP] at hndP'
  have hnd1 : (keysOf p1).Nodup := (List.nodup_append.mp hndP').1
  have hndk : (k :: keysOf p2).Nodup := (List.nodup_append.mp hndP').2.1
  have hdisjP : (keysOf p1).Disjoint (k :: keysOf p2) := (List.nodup_append.mp hndP').2.2
  have hnd2 : (keysOf p2).Nodup := (List.nodup_cons.mp hndk).2
  have hknp2 : k ∉ keysOf p2 := (List.nodup_cons.mp hndk).1
  have hknp1 : k ∉ keysOf p1 := fun hh => hdisjP hh (List.mem_cons_self _ _)
  have hkinP : k ∈ keysOf (p1 ++ (k, HVal.ref ga) :: p2) := by
    rw [hkP]
    exact List.mem_append.mpr (Or.inr (List.mem_cons_self _ _))
  have hkng : k ∉ keysOf g := fun hh => hdisj k hh hkinP
  have hsubp1 : ∀ kv ∈ p1, kv ∈ p1 ++ (k, HVal.ref ga) :: p2 :=
    fun kv hkv => List.mem_append.mpr (Or.inl hkv)
  have hphase1 := valAt_scalar_of_mem hla hndP hsubp1 hs1
  have hinner_vals := valAt_scalar_of_mem hlg hndg (fun kv hkv => hkv) hsg
  have hvalk : valAt h a k = some (HVal.ref ga) := by
    rw [valAt, hla]
    simp only [Option.some_bind]
    rw [getKey]
    exact assocFind_of_mem_nodup hndP (List.mem_append.mpr (Or.inr (List.mem_cons_self _ _)))
  show lookupObj (jsFlatten (Nat.succ (Nat.succ fuel)) none (HVal.ref a) none h) a =
    some (p1 ++ p2 ++ g)
  rw [jsFlatten.eq_def]
  dsimp only
  rw [hla]
  dsimp only
  rw [hkP, flattenLoop_append]
  have hph1 : flattenLoop (fun n v p h' => jsFlatten (Nat.succ fuel) n v p h')
      (keysOf p1) a h = h :=
    flattenLoop_scalars _ (fun n v p h' hv => jsFlatten_nonref hv _ n p h')
      (keysOf p1) a h hphase1
  rw [hph1, flattenLoop, hvalk]
  dsimp only
  have hginner : flattenLoop (fun n v p h' => jsFlatten fuel n v p h') (keysOf g) ga h = h :=
    flattenLoop_scalars _ (fun n v p h' hv => jsFlatten_nonref hv _ n p h')
      (keysOf g) ga h hinner_vals
  have hstep : jsFlatten (Nat.succ fuel) (some k) (HVal.ref ga) (some a) h =
      delKeyAt (hoistLoop (keysOf g) ga a h) a k := by
    rw [jsFlatten.eq_def]
    dsimp only
    rw [hlg]
    dsimp only
    rw [hginner, if_pos hk, hlg]
  rw [hstep]
  have hdisjg : ∀ kv ∈ g, kv.1 ∉ keysOf (p1 ++ (k, HVal.ref ga) :: p2) := by
    intro kv hkv
    exact hdisj kv.1 (List.mem_map.mpr ⟨kv, hkv, rfl⟩)
  obtain ⟨hha, hhg⟩ := hoistLoop_appends hne hndg g h (p1 ++ (k, HVal.ref ga) :: p2) hlg hla
    (fun kv hkv => hkv) hndg hdisjg
  have hdelA : lookupObj (delKeyAt (hoistLoop (keysOf g) ga a h) a k) a =
      some (delKey ((p1 ++ (k, HVal.ref ga) :: p2) ++ g) k) :=
    lookupObj_mapAt_self hha _
  have hdelval : delKey ((p1 ++ (k, HVal.ref ga) :: p2) ++ g) k = p1 ++ p2 ++ g := by
    rw [delKey_append, delKey_append, delKey_cons_self,
        delKey_of_not_mem hknp1, delKey_of_not_mem hknp2, delKey_of_not_mem hkng]
  rw [hdelval] at hdelA
  have hnd3 : (keysOf (p1 ++ p2 ++ g)).Nodup := by
    rw [keysOf_append, keysOf_append, List.nodup_append]
    refine ⟨?_, hndg, ?_⟩
    · rw [List.nodup_append]
      exact ⟨hnd1, hnd2, fun x hx1 hx2 => hdisjP hx1 (List.mem_cons_of_mem _ hx2)⟩
    · intro x hx hxg
      apply hdisj x hxg
      rw [hkP]
      rcases List.mem_append.mp hx with h1 | h1
      · exact List.mem_append.mpr (Or.inl h1)
      · exact List.mem_append.mpr (Or.inr (List.mem_cons_of_mem _ h1))
  have hsubp2 : ∀ kv ∈ p2, kv ∈ p1 ++ p2 ++ g := fun kv hkv =>
    List.mem_append.mpr (Or.inl (List.mem_append.mpr (Or.inr hkv)))
  have hphase3 := valAt_scalar_of_mem hdelA hnd3 hsubp2 hs2
  have hph3 : flattenLoop (fun n v p h' => jsFlatten (Nat.succ fuel) n v p h') (keysOf p2) a
      (delKeyAt (hoistLoop (keysOf g) ga a h) a k) =
      delKeyAt (hoistLoop (keysOf g) ga a h) a k :=
    flattenLoop_scalars _ (fun n v p h' hv => jsFlatten_nonref hv _ n p h')
      (keysOf p2) a _ hphase3
  rw [hph3]
  exact hdelA

/-! ## Spread-merge and normalizer lemmas -/

theorem jsSpread_cons (a : Obj) (kv : String × HVal) (rest : Obj) :
    jsSpread a (kv :: rest) = jsSpread (setKey a kv.1 kv.2) rest :=
  rfl

theorem getKey_jsSpread_not_mem {bo : Obj} {k : String} (h : k ∉ keysOf bo) (a : Obj) :
    getKey (jsSpread a bo) k = getKey a k := by
  induction bo generalizing a with
  | nil => rfl
  | cons kv rest ih =>
    rw [jsSpread_cons]
    have hk1 : k ∉ keysOf rest := fun hh => h (List.mem_cons_of_mem _ hh)
    rw [ih hk1]
    have hne : k ≠ kv.1 := fun hh => h (by rw [hh]; exact List.mem_cons_self _ _)
    exact getKey_setKey_ne hne a kv.2

theorem getKey_jsSpread_right {bo : Obj} (hnd : (keysOf bo).Nodup) {k : String} {v : HVal}
    (hv : getKey bo k = some v) : ∀ a : Obj, getKey (jsSpread a bo) k = some v := by
  induction bo generalizing k v with
  | nil => simp [getKey, assocFind] at hv
  | cons kv rest ih =>
    intro a
    obtain ⟨k1, v1⟩ := kv
    rw [show keysOf ((k1, v1) :: rest) = k1 :: keysOf rest from rfl, List.nodup_cons] at hnd
    rw [jsSpread_cons]
    rw [getKey, assocFind_cons] at hv
    by_cases hk : k = k1
    · rw [if_pos hk] at hv
      injection hv with hv
      subst hk
      rw [getKey_jsSpread_not_mem hnd.1]
      rw [getKey_setKey_self, hv]
    · rw [if_neg hk] at hv
      exact ih hnd.2 hv _

theorem foldl_push_eq_map {α β : Type} (gf : α → β) :
    ∀ (l : List α) (acc : List β),
      l.foldl (fun r x => r ++ [gf x]) acc = acc ++ l.map gf := by
  intro l
  induction l with
  | nil =>
    intro acc
    simp
  | cons x xs ih =>
    intro acc
    rw [List.foldl_cons, ih, List.map_cons]
    simp

theorem generate_actions_eq_map (acts : List RawAction) :
    generate_actions (some acts) = acts.map generateOne := by
  have h := foldl_push_eq_map generateOne acts []
  rw [List.nil_append] at h
  exact h

theorem generateOne_eq_spec : generateOne = normalizeActionSpec := by
  funext a
  cases a with
  | arr elems =>
    simp only [generateOne, normalizeActionSpec]
    cases h1 : elems[1]? <;> rfl
  | prim s => rfl
  | objA i l c cl => rfl

/-! ## Claim theorems -/

theorem submitted_heap (fuel : Nat) (h : Heap) (rv rc : Nat) (bid : Option String)
    (ic : Bool) (config : DjangoFormConfig) (extra : Obj) :
    (submitted fuel h rv rc bid ic config extra).1 =
      applyButtonId bid rc (jsFlatten fuel none (HVal.ref rc) none
        (h ++ [(rc, (lookupObj h rv).getD [])])) := by
  cases ic <;> rfl

/-- C1: the claim as stated is false.  In `submit_to_django` the body
is `{...extra, ...data}`: at the concrete input where the extra
parameters bind `k` to `1` and the payload binds `k` to `2`, the
request body carries the payload's value `2`, not the extra
parameter's value `1` — the extra parameter does not win. -/
theorem c1_extra_wins_counterexample :
    submit_to_django ⟨some "u", "post", false, none⟩
        [("k", HVal.num 1)] [("k", HVal.num 2)] =
      Except.ok (some (HttpReq.post "u" [("k", HVal.num 2)]), []) ∧
    (HVal.num 2 : HVal) ≠ HVal.num 1 := by
  constructor
  · rfl
  · decide

/-- C1 (amended): when the active configuration has a remote target and
a supported method, the request body is the spread merge of the extra
parameters with the flattened payload, and on a key present in both the
PAYLOAD's value wins (payload fields are spread second, so they
overwrite the extra parameters). -/
theorem c1_payload_wins (config : DjangoFormConfig) (extra data : Obj)
    (htruthy : strTruthy config.django_url = true)
    (hnd : (keysOf data).Nodup)
    (hmethod : config.method = "post" ∨ config.method = "patch") :
    ∃ req : HttpReq,
      submit_to_django config extra data = Except.ok (some req, []) ∧
      req.body = jsSpread extra data ∧
      ∀ k v, getKey data k = some v → getKey req.body k = some v := by
  rcases hmethod with hm | hm
  · refine ⟨HttpReq.post (config.django_url.getD "") (jsSpread extra data), ?_, rfl, ?_⟩
    · simp only [submit_to_django, htruthy, if_true, hm]
    · intro k v hv
      exact getKey_jsSpread_right hnd hv extra
  · refine ⟨HttpReq.patch (config.django_url.getD "") (jsSpread extra data), ?_, rfl, ?_⟩
    · simp only [submit_to_django, htruthy, if_true, hm]
    · intro k v hv
      exact getKey_jsSpread_right hnd hv extra

theorem c1_payload_wins_witness :
    (strTruthy (some "u") = true ∧
      (keysOf [("k", HVal.num 2)]).Nodup ∧
      ("post" = "post" ∨ "post" = "patch")) ∧
    ∃ req : HttpReq,
      submit_to_django ⟨some "u", "post", false, none⟩
          [("k", HVal.num 1)] [("k", HVal.num 2)] = Except.ok (some req, []) ∧
      req.body = jsSpread [("k", HVal.num 1)] [("k", HVal.num 2)] ∧
      ∀ k v, getKey [("k", HVal.num 2)] k = some v → getKey req.body k = some v :=
  ⟨⟨by decide, by decide, Or.inl rfl⟩,
    c1_payload_wins ⟨some "u", "post", false, none⟩ [("k", HVal.num 1)]
      [("k", HVal.num 2)] (by decide) (by decide) (Or.inl rfl)⟩

/-- C4: when the active configuration has a truthy remote target and a
method that is neither `"post"` nor `"patch"`, `submit_to_django`
throws (modelled by `Except.error`) without issuing any HTTP request
and without emitting any event. -/
theorem c4_unsupported_method_raises (config : DjangoFormConfig) (extra data : Obj)
    (htruthy : strTruthy config.django_url = true)
    (hpost : config.method ≠ "post") (hpatch : config.method ≠ "patch") :
    submit_to_django config extra data =
      Except.error ("Unimplemented method " ++ config.method) := by
  simp only [submit_to_django, htruthy, if_true, hpost, hpatch]

theorem c4_unsupported_method_raises_witness :
    (strTruthy (some "u") = true ∧ "put" ≠ "post" ∧ "put" ≠ "patch") ∧
    submit_to_django ⟨some "u", "put", false, none⟩ [] [("k", HVal.num 1)] =
      Except.error ("Unimplemented method " ++ "put") :=
  ⟨⟨by decide, by decide, by decide⟩,
    c4_unsupported_method_raises ⟨some "u", "put", false, none⟩ [] [("k", HVal.num 1)]
      (by decide) (by decide) (by decide)⟩

/-- C5: calling `submitted` with the cancel flag set issues no HTTP
request and produces exactly one event — a cancel event whose data is
the flattened snapshot of the form values (shallow copy at `rc`,
flattened, with the action-id key set to `true` when a truthy action
id is present), for every form state, action id and configuration. -/
theorem c5_cancel_no_http (fuel : Nat) (h : Heap) (rv rc : Nat) (bid : Option String)
    (config : DjangoFormConfig) (extra : Obj) :
    (submitted fuel h rv rc bid true config extra).2 =
      Except.ok (none, [FormEvent.cancelEvt (flattenSnapshot fuel h rv rc bid)]) :=
  rfl

/-- C6: when the active configuration's remote target URL is absent
(falsy), `submit_to_django` issues no HTTP request and emits exactly
one submit event carrying the payload, for every payload and extra
parameters. -/
theorem c6_no_url_emits_locally (config : DjangoFormConfig) (extra data : Obj)
    (hfalsy : strTruthy config.django_url = false) :
    submit_to_django config extra data =
      Except.ok (none, [FormEvent.submitEvt data]) := by
  simp only [submit_to_django, hfalsy, Bool.false_eq_true, if_false]

theorem c6_no_url_emits_locally_witness :
    (strTruthy none = false ∧ strTruthy (some "") = false) ∧
    submit_to_django ⟨none, "post", false, none⟩ [] [("k", HVal.num 1)] =
      Except.ok (none, [FormEvent.submitEvt [("k", HVal.num 1)]]) ∧
    submit_to_django ⟨some "", "post", false, none⟩ [] [("k", HVal.num 1)] =
      Except.ok (none, [FormEvent.submitEvt [("k", HVal.num 1)]]) :=
  ⟨⟨by decide, by decide⟩,
    c6_no_url_emits_locally ⟨none, "post", false, none⟩ [] [("k", HVal.num 1)] (by decide),
    c6_no_url_emits_locally ⟨some "", "post", false, none⟩ [] [("k", HVal.num 1)] (by decide)⟩

/-- C2: the claim as stated is false.  `submitted` copies `form.value`
only shallowly, so nested objects stay shared with the live form
state, and `_flatten` mutates them in place.  Concretely, for the form
values `{a: {generated_x: {b: 2}}}` (root at address 2, whose field
`a` points to the object at address 1), running `submitted` rewrites
the object at address 1 — reachable from the original root — from
`{generated_x: <ref 0>}` to `{b: 2}`. -/
theorem c2_shallow_copy_counterexample :
    lookupObj [(0, [("b", HVal.num 2)]), (1, [("generated_x", HVal.ref 0)]),
        (2, [("a", HVal.ref 1)])] 1 = some [("generated_x", HVal.ref 0)] ∧
    lookupObj ((submitted 3
        [(0, [("b", HVal.num 2)]), (1, [("generated_x", HVal.ref 0)]),
         (2, [("a", HVal.ref 1)])]
        2 3 none true (DjangoFormConfig.mk none "post" false none) []).1) 1 =
      some [("b", HVal.num 2)] := by
  constructor
  · rfl
  · decide

/-- C2 (amended): `submitted` takes a shallow copy of the form values
before flattening, and that protects the original TOP-LEVEL
form-values object: the object stored at the root address keeps
exactly its bindings (all top-level mutations — depth-one hoists and
the action-id write — hit only the copy).  Nested objects reachable
from the root may still be mutated (see the counterexample), so the
protection does not extend to them. -/
theorem c2_root_object_preserved (fuel : Nat) (h : Heap) (r0 rc : Nat) (o : Obj)
    (bid : Option String) (is_cancel : Bool) (config : DjangoFormConfig) (extra : Obj)
    (hla : lookupObj h r0 = some o) (hn : noRefToB r0 h = true)
    (hrc : lookupObj h rc = none) :
    lookupObj (submitted fuel h r0 rc bid is_cancel config extra).1 r0 = some o := by
  have hner : rc ≠ r0 := by
    rintro rfl
    rw [hla] at hrc
    exact Option.noConfusion hrc
  have hv0 : (lookupObj h r0).getD [] = o := by
    rw [hla]
    rfl
  have hl1 : lookupObj (h ++ [(rc, (lookupObj h r0).getD [])]) r0 = some o :=
    assocFind_append_left hla
  have hn1 : noRefToB r0 (h ++ [(rc, (lookupObj h r0).getD [])]) = true := by
    rw [hv0]
    refine noRefToB_append hn ?_
    rw [List.all_eq_true]
    intro kv hkv
    have hne := noRefToB_val hn hla hkv
    simpa using hne
  obtain ⟨hl2, _⟩ := jsFlatten_frame fuel none (HVal.ref rc) none
    (h ++ [(rc, (lookupObj h r0).getD [])]) hn1
    (fun hh => hner (HVal.ref.inj hh)) (fun hh => Option.noConfusion hh)
  have hl3 : lookupObj (applyButtonId bid rc (jsFlatten fuel none (HVal.ref rc) none
      (h ++ [(rc, (lookupObj h r0).getD [])]))) r0 = some o := by
    cases bid with
    | none => exact hl2.trans hl1
    | some b =>
      rw [applyButtonId]
      by_cases hb : b = ""
      · rw [if_pos hb]
        exact hl2.trans hl1
      · rw [if_neg hb]
        exact (lookupObj_mapAt_ne (fun hh => hner hh.symm) _ _).trans (hl2.trans hl1)
  rw [submitted_heap]
  exact hl3

theorem c2_root_object_preserved_witness :
    (lookupObj [(0, [("c", HVal.num 2)]), (1, [("a", HVal.ref 0)])] 1 =
        some [("a", HVal.ref 0)] ∧
      noRefToB 1 [(0, [("c", HVal.num 2)]), (1, [("a", HVal.ref 0)])] = true ∧
      lookupObj [(0, [("c", HVal.num 2)]), (1, [("a", HVal.ref 0)])] 2 = none) ∧
    lookupObj ((submitted 2 [(0, [("c", HVal.num 2)]), (1, [("a", HVal.ref 0)])] 1 2
        (some "save") false (DjangoFormConfig.mk none "post" false none) []).1) 1 =
      some [("a", HVal.ref 0)] :=
  ⟨⟨by decide, by decide, by decide⟩,
    c2_root_object_preserved 2 [(0, [("c", HVal.num 2)]), (1, [("a", HVal.ref 0)])] 1 2
      [("a", HVal.ref 0)] (some "save") false (DjangoFormConfig.mk none "post" false none)
      [] (by decide) (by decide) (by decide)⟩

/-- C3: `_flatten` hoists the own fields of an object stored under a
`"generated_"`-prefixed key into its parent and deletes the marker
key (general statement for a marked child with scalar fields,
distinct keys and no key collisions), and the two concrete examples:
`{a:1, generated_x:{b:2,c:3}}` flattens to `{a:1,b:2,c:3}`, and the
nested `{generated_x:{generated_y:{b:1}}}` flattens bottom-up to
`{b:1}`. -/
theorem c3_flatten_hoists :
    (∀ (fuel : Nat) (h : Heap) (a ga : Nat) (p1 p2 g : Obj) (k : String),
      lookupObj h a = some (p1 ++ (k, HVal.ref ga) :: p2) →
      lookupObj h ga = some g → a ≠ ga → isGeneratedKey k = true →
      objScalarB p1 = true → objScalarB p2 = true → objScalarB g = true →
      (keysOf (p1 ++ (k, HVal.ref ga) :: p2)).Nodup → (keysOf g).Nodup →
      (∀ k2 ∈ keysOf g, k2 ∉ keysOf (p1 ++ (k, HVal.ref ga) :: p2)) →
      lookupObj (jsFlatten (fuel + 2) none (HVal.ref a) none h) a =
        some (p1 ++ p2 ++ g)) ∧
    jsFlatten 2 none (HVal.ref 1) none
        [(0, [("b", HVal.num 2), ("c", HVal.num 3)]),
         (1, [("a", HVal.num 1), ("generated_x", HVal.ref 0)])] =
      [(0, [("b", HVal.num 2), ("c", HVal.num 3)]),
       (1, [("a", HVal.num 1), ("b", HVal.num 2), ("c", HVal.num 3)])] ∧
    lookupObj (jsFlatten 3 none (HVal.ref 2) none
        [(0, [("b", HVal.num 1)]), (1, [("generated_y", HVal.ref 0)]),
         (2, [("generated_x", HVal.ref 1)])]) 2 = some [("b", HVal.num 1)] :=
  ⟨fun fuel h a ga p1 p2 g k hla hlg hne hk hs1 hs2 hsg hndP hndg hdisj =>
      flatten_hoists_general fuel h a ga p1 p2 g k hla hlg hne hk hs1 hs2 hsg hndP hndg
        hdisj,
    by decide, by decide⟩

theorem c3_flatten_hoists_witness :
    (isGeneratedKey "generated_x" = true ∧ (1 : Nat) ≠ 0) ∧
    lookupObj (jsFlatten (0 + 2) none (HVal.ref 1) none
        [(0, [("b", HVal.num 2), ("c", HVal.num 3)]),
         (1, [("a", HVal.num 1), ("generated_x", HVal.ref 0)])]) 1 =
      some ([("a", HVal.num 1)] ++ [] ++ [("b", HVal.num 2), ("c", HVal.num 3)]) :=
  ⟨⟨by decide, by decide⟩,
    c3_flatten_hoists.1 0
      [(0, [("b", HVal.num 2), ("c", HVal.num 3)]),
       (1, [("a", HVal.num 1), ("generated_x", HVal.ref 0)])]
      1 0 [("a", HVal.num 1)] [] [("b", HVal.num 2), ("c", HVal.num 3)] "generated_x"
      (by decide) (by decide) (by decide) (by decide) (by decide) (by decide) (by decide)
      (by decide) (by decide) (by decide)⟩

/-- C7: `_generate_actions` maps each descriptor, in input order, to
the normalized record described by the spec (pair with the label
defaulting to the id, bare scalar used as both, object with the color
defaulting to `"primary"`), and on the spec's concrete input it
produces exactly the spec's expected output. -/
theorem c7_generate_actions_normalizes :
    (∀ acts : List RawAction,
      generate_actions (some acts) = acts.map normalizeActionSpec) ∧
    generate_actions (some [RawAction.prim "save", RawAction.arr ["cancel", "Go Back"],
        RawAction.objA (some "x") (some "X") (some "warn") (some true)]) =
      [{ id := some "save", label := some "save", color := "primary", cancel := none },
       { id := some "cancel", label := some "Go Back", color := "primary", cancel := none },
       { id := some "x", label := some "X", color := "warn", cancel := some true }] := by
  constructor
  · intro acts
    rw [generate_actions_eq_map, generateOne_eq_spec]
  · decide

/-- C8: the configuration resolver issues exactly one extra GET (to
the configuration's own target URL) for a configuration that requires
initial data, attaching the transformed response as `initial_data`
before the configuration hook is applied; a configuration that does
not require initial data is published (after the configuration hook)
with no second request. -/
theorem c8_resolver_initial_data :
    (∀ (http_get : Option String → HVal) (idt : HVal → HVal)
        (ct : DjangoFormConfig → DjangoFormConfig) (c : DjangoFormConfig),
      c.has_initial_data = true →
      ngOnInitResolve http_get idt ct c =
        (ct { c with initial_data := some (idt (http_get c.django_url)) },
          [c.django_url])) ∧
    (∀ (http_get : Option String → HVal) (idt : HVal → HVal)
        (ct : DjangoFormConfig → DjangoFormConfig) (c : DjangoFormConfig),
      c.has_initial_data = false →
      ngOnInitResolve http_get idt ct c = (ct c, [])) := by
  constructor
  · intro http_get idt ct c hc
    simp only [ngOnInitResolve, attachInitialData, hc, if_true]
  · intro http_get idt ct c hc
    simp only [ngOnInitResolve, hc, Bool.false_eq_true, if_false]

theorem c8_resolver_initial_data_witness :
    ((DjangoFormConfig.mk (some "u") "get" true none).has_initial_data = true ∧
      (DjangoFormConfig.mk (some "u") "post" false none).has_initial_data = false) ∧
    ngOnInitResolve (fun _ => HVal.num 5) (fun v => v) (fun c => c)
        (DjangoFormConfig.mk (some "u") "get" true none) =
      (DjangoFormConfig.mk (some "u") "get" true (some (HVal.num 5)), [some "u"]) ∧
    ngOnInitResolve (fun _ => HVal.num 5) (fun v => v) (fun c => c)
        (DjangoFormConfig.mk (some "u") "post" false none) =
      (DjangoFormConfig.mk (some "u") "post" false none, []) :=
  ⟨⟨rfl, rfl⟩,
    c8_resolver_initial_data.1 (fun _ => HVal.num 5) (fun v => v) (fun c => c)
      (DjangoFormConfig.mk (some "u") "get" true none) rfl,
    c8_resolver_initial_data.2 (fun _ => HVal.num 5) (fun v => v) (fun c => c)
      (DjangoFormConfig.mk (some "u") "post" false none) rfl⟩

/-- C9: on a heap in which no object has a `"generated_"`-prefixed
key at any depth, `_flatten` (entered as in `submitted`, with null
name and null parent) changes nothing: the heap — and hence the
payload tree — is returned unchanged. -/
theorem c9_no_marker_identity (fuel : Nat) (h : Heap) (v : HVal)
    (hn : heapNoMarkerB h = true) :
    jsFlatten fuel none v none h = h :=
  jsFlatten_noMarker fuel none v none h hn rfl

theorem c9_no_marker_identity_witness :
    heapNoMarkerB [(0, [("a", HVal.num 1), ("b", HVal.ref 1)]),
        (1, [("c", HVal.num 2)])] = true ∧
    jsFlatten 2 none (HVal.ref 0) none
        [(0, [("a", HVal.num 1), ("b", HVal.ref 1)]), (1, [("c", HVal.num 2)])] =
      [(0, [("a", HVal.num 1), ("b", HVal.ref 1)]), (1, [("c", HVal.num 2)])] :=
  ⟨by decide,
    c9_no_marker_identity 2
      [(0, [("a", HVal.num 1), ("b", HVal.ref 1)]), (1, [("c", HVal.num 2)])]
      (HVal.ref 0) (by decide)⟩

/-- C10: the `cancel` field of every record produced by
`_generate_actions` equals the `cancel` property read directly off the
raw descriptor (`action.cancel` in the push of line 87), which is
absent (`none`) for array and scalar descriptors — never the default
`false` that the dead local variable `action_cancel` holds. -/
theorem c10_cancel_read_from_raw :
    (∀ acts : List RawAction,
      (generate_actions (some acts)).map NormalizedAction.cancel =
        acts.map rawCancelProp) ∧
    (∀ elems : List String, rawCancelProp (RawAction.arr elems) = none) ∧
    (∀ s : String, rawCancelProp (RawAction.prim s) = none) ∧
    (none : Option Bool) ≠ some false := by
  refine ⟨?_, fun _ => rfl, fun _ => rfl, by decide⟩
  intro acts
  rw [generate_actions_eq_map, List.map_map]
  have hfun : (NormalizedAction.cancel ∘ generateOne) = rawCancelProp := by
    funext a
    cases a <;> rfl
  rw [hfun]
